import Mathlib

/-!
Verification of the FilmFlow movie-recommendation application.

The frontend React components (`Pagination`, `getYouTubeEmbedUrl`, the
watch-history / watchlist de-duplication in `fetchProfile`) are embedded
directly from the JavaScript source.  The backend recommendation engine
(content-based similarity, collaborative prediction, hybrid scoring,
recommendation cache) is not part of the checked-in sources; those
components are modelled from the specification, as marked on each
definition.

JavaScript numbers used for page arithmetic are modelled as `Int`
(all values involved are small integers, so floating point never
loses precision there); scores are modelled as `ℚ`.
-/

namespace FilmFlow

/-! ### Pagination component (frontend/components/Pagination.js) -/

/-- The data rendered by the `Pagination` component: the visible window of
page-number buttons and the "showing startItem–endItem of totalItems" range. -/
structure PaginationView where
  pages : List Int
  startItem : Int
  endItem : Int
deriving DecidableEq

/-- The inclusive integer range `[lo, hi]` produced by the component's
`for (let i = startPage; i <= endPage; i++) pages.push(i)` loop. -/
def intRange (lo hi : Int) : List Int :=
  (List.range (hi + 1 - lo).toNat).map (fun i : Nat => lo + (i : Int))

/-- Embedding of the `Pagination` React component: returns `none` when the
component renders `null` (`totalPages <= 1`), otherwise the computed view. -/
def Pagination (currentPage totalPages itemsPerPage totalItems : Int) :
    Option PaginationView :=
  if totalPages ≤ 1 then none
  else
    let maxVisiblePages : Int := 5
    let startPage := max 1 (currentPage - maxVisiblePages / 2)
    let endPage := min totalPages (startPage + maxVisiblePages - 1)
    let startPage' :=
      if endPage - startPage < maxVisiblePages - 1 then
        max 1 (endPage - maxVisiblePages + 1)
      else startPage
    some { pages := intRange startPage' endPage,
           startItem := (currentPage - 1) * itemsPerPage + 1,
           endItem := min (currentPage * itemsPerPage) totalItems }

theorem mem_intRange {m lo hi : Int} : m ∈ intRange lo hi ↔ lo ≤ m ∧ m ≤ hi := by
  simp only [intRange, List.mem_map, List.mem_range]
  constructor
  · rintro ⟨i, hi', rfl⟩
    constructor
    · omega
    · omega
  · rintro ⟨h1, h2⟩
    refine ⟨(m - lo).toNat, ?_, ?_⟩
    · omega
    · omega

theorem length_intRange (lo hi : Int) : (intRange lo hi).length = (hi + 1 - lo).toNat := by
  rw [intRange, List.length_map, List.length_range]

/-- C8: the `Pagination` component returns `null` whenever `totalPages ≤ 1`;
otherwise, for every `currentPage` between 1 and `totalPages`, the rendered
window of page buttons has at most 5 pages and contains `currentPage`, and
the displayed item range is `startItem = (currentPage-1)*itemsPerPage+1`
through `endItem = min (currentPage*itemsPerPage) totalItems`. -/
theorem pagination_spec (cp tp ipp ti : Int) :
    (tp ≤ 1 → Pagination cp tp ipp ti = none) ∧
    (1 ≤ cp → cp ≤ tp → 2 ≤ tp →
      ∃ v, Pagination cp tp ipp ti = some v ∧
        v.pages.length ≤ 5 ∧ cp ∈ v.pages ∧
        v.startItem = (cp - 1) * ipp + 1 ∧ v.endItem = min (cp * ipp) ti) := by
  constructor
  · intro h
    simp [Pagination, h]
  · intro h1 h2 h3
    have hne : ¬ tp ≤ 1 := by omega
    rw [Pagination, if_neg hne]
    refine ⟨_, rfl, ?_, ?_, rfl, rfl⟩
    · rw [length_intRange]
      have h5 : (min tp (max 1 (cp - 5 / 2) + 5 - 1) : Int) ≤ max 1 (cp - 5 / 2) + 4 := by
        omega
      split
      · omega
      · omega
    · rw [mem_intRange]
      split
      · constructor
        · omega
        · omega
      · constructor
        · omega
        · omega

/-- Closed-form check of `pagination_spec` at concrete inputs (discharging
its hypotheses at `totalPages = 1` and at `currentPage = 2, totalPages = 5`). -/
theorem pagination_spec_witness :
    Pagination 2 1 20 10 = none ∧
    (∃ v, Pagination 2 5 20 100 = some v ∧
      v.pages.length ≤ 5 ∧ (2 : Int) ∈ v.pages ∧
      v.startItem = (2 - 1) * 20 + 1 ∧ v.endItem = min (2 * 20) 100) :=
  ⟨(pagination_spec 2 1 20 10).1 (by decide),
   (pagination_spec 2 5 20 100).2 (by decide) (by decide) (by decide)⟩

/-! ### YouTube embed-URL conversion (RecommendationsPage.js, getYouTubeEmbedUrl)

JavaScript strings are modelled as Lean `String`s, with the string
operations the code uses (`includes`, first-occurrence `replace`,
`split`) implemented structurally over the underlying character lists so
that they evaluate inside the kernel.  `new URL(...)` is modelled by
`parseURL`, which parses the hierarchical `scheme://host/path?query`
shape and fails (like the JS constructor throwing) on inputs without a
scheme or host. -/

/-- Structural splitter on character lists with the semantics of JS
`String.prototype.split` for a fixed non-empty separator (left-to-right,
non-overlapping matches).  The `Nat` argument counts separator characters
still to be skipped after a match. -/
def splitGo (sep : List Char) : List Char → Nat → List Char → List (List Char)
  | [], _, acc => [acc.reverse]
  | _ :: cs, k + 1, acc => splitGo sep cs k acc
  | c :: cs, 0, acc =>
    if sep.isPrefixOf (c :: cs) then
      acc.reverse :: splitGo sep cs (sep.length - 1) []
    else splitGo sep cs 0 (c :: acc)

def splitOnList (sep l : List Char) : List (List Char) :=
  if sep.isEmpty then [l] else splitGo sep l 0 []

/-- JS `s.includes(pat)` for a non-empty pattern. -/
def jsIncludes (s pat : String) : Bool := 2 ≤ (splitOnList pat.data s.data).length

/-- JS `s.replace(pat, repl)` with a string pattern: replaces only the
first occurrence. -/
def jsReplaceFirst (s pat repl : String) : String :=
  match splitOnList pat.data s.data with
  | [] => s
  | [_] => s
  | a :: rest => String.mk (a ++ repl.data ++ List.intercalate pat.data rest)

/-- The parts of a JS `URL` object that `getYouTubeEmbedUrl` reads. -/
structure JSURL where
  scheme : String
  host : String
  pathname : String
  search : String
deriving DecidableEq

/-- Model of `new URL(s)` for hierarchical URLs: `none` corresponds to the
JS constructor throwing (no `scheme://` or empty host, e.g. any relative
URL such as `"/embed"`). -/
def parseURL (s : String) : Option JSURL :=
  match splitOnList "://".data s.data with
  | scheme :: rest0 :: rest =>
    if scheme.isEmpty then none
    else
      let after := List.intercalate "://".data (rest0 :: rest)
      let hostCs := after.takeWhile (fun c => c ≠ '/' && c ≠ '?')
      let restCs := after.dropWhile (fun c => c ≠ '/' && c ≠ '?')
      if hostCs.isEmpty then none
      else
        match restCs with
        | [] => some ⟨String.mk scheme, String.mk hostCs, "/", ""⟩
        | '?' :: q => some ⟨String.mk scheme, String.mk hostCs, "/", String.mk q⟩
        | path => some ⟨String.mk scheme, String.mk hostCs,
            String.mk (path.takeWhile (fun c => c ≠ '?')),
            String.mk ((path.dropWhile (fun c => c ≠ '?')).drop 1)⟩
  | _ => none

/-- JS `urlObj.searchParams.get(name)`: first value bound to `name` in the
query string, `none` when absent. -/
def searchParamsGet (search name : String) : Option String :=
  ((splitOnList "&".data search.data).filterMap (fun kv =>
    match splitOnList "=".data kv with
    | [] => none
    | k :: vs =>
      if k = name.data then some (String.mk (List.intercalate "=".data vs)) else none)).head?

/-- JS `u.toString()` after the hostname rewrite in the `/embed` branch. -/
def urlToString (u : JSURL) : String :=
  u.scheme ++ "://" ++ u.host ++ u.pathname ++
    (if u.search = "" then "" else "?" ++ u.search)

/-- The hostname rewrite applied in the `/embed` branch:
`hostname.replace('www.youtube.com', nocookie).replace('youtube.com', nocookie)`. -/
def nocookieHost (h : String) : String :=
  jsReplaceFirst (jsReplaceFirst h "www.youtube.com" "www.youtube-nocookie.com")
    "youtube.com" "www.youtube-nocookie.com"

/-- Embedding of `getYouTubeEmbedUrl` from RecommendationsPage.js.  The
`Option String` argument models a possibly `null`/`undefined` URL; the JS
falsiness test `!url` also catches the empty string. -/
def getYouTubeEmbedUrl (url : Option String) : Option String :=
  match url with
  | none => none
  | some url =>
    if url = "" then none
    else if jsIncludes url "/embed" then
      match parseURL url with
      | some u => some (urlToString { u with host := nocookieHost u.host })
      | none => some url
    else
      match parseURL url with
      | none => none
      | some u =>
        let fromWatch : Option String :=
          if jsIncludes u.host "youtube.com" || jsIncludes u.host "www.youtube.com" then
            match searchParamsGet u.search "v" with
            | some v =>
              if v = "" then none
              else some ("https://www.youtube-nocookie.com/embed/" ++ v)
            | none => none
          else none
        match fromWatch with
        | some r => some r
        | none =>
          if jsIncludes u.host "youtu.be" then
            let vid := (splitOnList "?".data (u.pathname.data.drop 1)).headD []
            if vid.isEmpty then none
            else some ("https://www.youtube-nocookie.com/embed/" ++ String.mk vid)
          else none

/-- C9 counterexample: `"/embed"` is an unparseable (relative), non-YouTube
input, yet `getYouTubeEmbedUrl` returns it unchanged instead of `null`:
the `url.includes('/embed')` branch catches it first and its exception
handler returns the original URL. -/
theorem getYouTubeEmbedUrl_counterexample :
    parseURL "/embed" = none ∧
    getYouTubeEmbedUrl (some "/embed") = some "/embed" := by
  constructor
  · decide
  · decide

/-- C9 (amended): `getYouTubeEmbedUrl` is total; `null`/empty input yields
`null`; an input containing `/embed` is returned with its YouTube hostname
rewritten to `youtube-nocookie` when parseable and unchanged (never `null`)
otherwise; a parseable YouTube watch URL with a non-empty `v` parameter and
a parseable `youtu.be` URL with a non-empty path each yield a
`youtube-nocookie` embed URL; every other input — unparseable or with a
non-YouTube host — yields `null`. -/
theorem getYouTubeEmbedUrl_amended_spec :
    (getYouTubeEmbedUrl none = none) ∧
    (getYouTubeEmbedUrl (some "") = none) ∧
    (∀ url u, url ≠ "" → jsIncludes url "/embed" = true → parseURL url = some u →
      getYouTubeEmbedUrl (some url) =
        some (urlToString { u with host := nocookieHost u.host })) ∧
    (∀ url, url ≠ "" → jsIncludes url "/embed" = true → parseURL url = none →
      getYouTubeEmbedUrl (some url) = some url) ∧
    (∀ url u v, url ≠ "" → jsIncludes url "/embed" = false → parseURL url = some u →
      jsIncludes u.host "youtube.com" = true →
      searchParamsGet u.search "v" = some v → v ≠ "" →
      getYouTubeEmbedUrl (some url) =
        some ("https://www.youtube-nocookie.com/embed/" ++ v)) ∧
    (∀ url u, url ≠ "" → jsIncludes url "/embed" = false → parseURL url = some u →
      jsIncludes u.host "youtube.com" = false → jsIncludes u.host "www.youtube.com" = false →
      jsIncludes u.host "youtu.be" = true →
      (splitOnList "?".data (u.pathname.data.drop 1)).headD [] ≠ [] →
      getYouTubeEmbedUrl (some url) =
        some ("https://www.youtube-nocookie.com/embed/" ++
          String.mk ((splitOnList "?".data (u.pathname.data.drop 1)).headD []))) ∧
    (∀ url, url ≠ "" → jsIncludes url "/embed" = false → parseURL url = none →
      getYouTubeEmbedUrl (some url) = none) ∧
    (∀ url u, url ≠ "" → jsIncludes url "/embed" = false → parseURL url = some u →
      jsIncludes u.host "youtube.com" = false → jsIncludes u.host "www.youtube.com" = false →
      jsIncludes u.host "youtu.be" = false →
      getYouTubeEmbedUrl (some url) = none) := by
  refine ⟨rfl, rfl, ?_, ?_, ?_, ?_, ?_, ?_⟩
  · intro url u h0 h1 h2
    simp [getYouTubeEmbedUrl, h0, h1, h2]
  · intro url h0 h1 h2
    simp [getYouTubeEmbedUrl, h0, h1, h2]
  · intro url u v h0 h1 h2 h3 h4 h5
    simp [getYouTubeEmbedUrl, h0, h1, h2, h3, h4, h5]
  · intro url u h0 h1 h2 h3 h4 h5 h6
    simp at h6
    simp [getYouTubeEmbedUrl, h0, h1, h2, h3, h4, h5, List.isEmpty_iff, h6]
  · intro url h0 h1 h2
    simp [getYouTubeEmbedUrl, h0, h1, h2]
  · intro url u h0 h1 h2 h3 h4 h5
    simp [getYouTubeEmbedUrl, h0, h1, h2, h3, h4, h5]

/-- Closed-form check of `getYouTubeEmbedUrl_amended_spec` on a watch URL,
a `youtu.be` short URL, and a plain non-URL string. -/
theorem getYouTubeEmbedUrl_amended_witness :
    getYouTubeEmbedUrl (some "https://www.youtube.com/watch?v=abc123") =
      some ("https://www.youtube-nocookie.com/embed/" ++ "abc123") ∧
    getYouTubeEmbedUrl (some "https://youtu.be/XyZ09") =
      some ("https://www.youtube-nocookie.com/embed/" ++
        String.mk ((splitOnList "?".data
          ((JSURL.pathname ⟨"https", "youtu.be", "/XyZ09", ""⟩).data.drop 1)).headD [])) ∧
    getYouTubeEmbedUrl (some "notaurl") = none :=
  ⟨getYouTubeEmbedUrl_amended_spec.2.2.2.2.1 "https://www.youtube.com/watch?v=abc123"
      ⟨"https", "www.youtube.com", "/watch", "v=abc123"⟩ "abc123"
      (by decide) (by decide) (by decide) (by decide) (by decide) (by decide),
   getYouTubeEmbedUrl_amended_spec.2.2.2.2.2.1 "https://youtu.be/XyZ09"
      ⟨"https", "youtu.be", "/XyZ09", ""⟩
      (by decide) (by decide) (by decide) (by decide) (by decide) (by decide) (by decide),
   getYouTubeEmbedUrl_amended_spec.2.2.2.2.2.2.1 "notaurl" (by decide) (by decide) (by decide)⟩

/-! ### fetchProfile de-duplication (frontend/src/pages/ProfilePage.js)

`fetchProfile` deduplicates the fetched watchlist (lines 85–99) and the
fetched watch history (lines 113–137) with identical `seenIds`-Set loops,
remapping each kept record.  Absent (or otherwise falsy) string fields are
modelled as `none`. -/

/-- JS `a || b` on possibly-absent strings: `a` unless it is absent or
empty (both falsy in JS). -/
def jsOrS (a b : Option String) : Option String :=
  match a with
  | some s => if s = "" then b else some s
  | none => b

/-- A raw watchlist movie record as returned by the backend. -/
structure RawMovie where
  id : Option String
  movie_id : Option String
  poster_url : Option String
  poster_path : Option String
  title : Option String
deriving DecidableEq

/-- The deduplication key `movie.id || movie.movie_id` of the watchlist loop. -/
def wlKey (m : RawMovie) : Option String := jsOrS m.id m.movie_id

/-- The record pushed for a kept watchlist movie:
`{...movie, id: movieId, poster_url: movie.poster_url || movie.poster_path}`. -/
def wlRemap (m : RawMovie) : RawMovie :=
  { m with id := wlKey m, poster_url := jsOrS m.poster_url m.poster_path }

/-- The watchlist `forEach` deduplication loop, with the `seenIds` JS `Set`
modelled as the list of keys inserted so far. -/
def dedupWatchlistAux (seen : List (Option String)) : List RawMovie → List RawMovie
  | [] => []
  | m :: ms =>
    if wlKey m ∈ seen then dedupWatchlistAux seen ms
    else wlRemap m :: dedupWatchlistAux (wlKey m :: seen) ms

def dedupWatchlist (ms : List RawMovie) : List RawMovie := dedupWatchlistAux [] ms

/-- A raw watch-history record as returned by the backend. -/
structure RawHistMovie where
  id : Option String
  movie_id : Option String
  watched_at : Option String
  progress : Option Int
  completed : Option Bool
  title : Option String
deriving DecidableEq

/-- The object pushed for a kept history record:
`{movieId, watchedAt: movie.watched_at, progress: movie.progress,
completed: movie.completed, ...movie}` (the spread keeps all original
fields alongside the four derived ones). -/
structure HistEntry where
  movieId : Option String
  watchedAt : Option String
  progressOut : Option Int
  completedOut : Option Bool
  movie : RawHistMovie
deriving DecidableEq

/-- The deduplication key `movie.id || movie.movie_id` of the history loop. -/
def histKey (m : RawHistMovie) : Option String := jsOrS m.id m.movie_id

def histRemap (m : RawHistMovie) : HistEntry :=
  ⟨histKey m, m.watched_at, m.progress, m.completed, m⟩

/-- The watch-history `forEach` deduplication loop. -/
def dedupHistoryAux (seen : List (Option String)) : List RawHistMovie → List HistEntry
  | [] => []
  | m :: ms =>
    if histKey m ∈ seen then dedupHistoryAux seen ms
    else histRemap m :: dedupHistoryAux (histKey m :: seen) ms

def dedupHistory (ms : List RawHistMovie) : List HistEntry := dedupHistoryAux [] ms

/-- Reference definition following the claim's words: keep each key's first
occurrence, drop every later record with an already-seen key, and preserve
the relative order of the kept first occurrences. -/
def keepFirstBy {α κ : Type} [DecidableEq κ] (key : α → κ) : List α → List α
  | [] => []
  | x :: xs => x :: keepFirstBy key (xs.filter (fun y => key y ≠ key x))
termination_by l => l.length
decreasing_by
  simp only [List.length_cons]
  exact Nat.lt_succ_of_le (List.length_filter_le _ _)

theorem mem_keepFirstBy {α κ : Type} [DecidableEq κ] {key : α → κ} {l : List α} {y : α}
    (h : y ∈ keepFirstBy key l) : y ∈ l := by
  induction l using keepFirstBy.induct key with
  | case1 => simp [keepFirstBy] at h
  | case2 x xs ih =>
    rw [keepFirstBy] at h
    rcases List.mem_cons.mp h with h | h
    · simp [h]
    · exact List.mem_cons_of_mem _ (List.mem_of_mem_filter (ih h))

theorem keepFirstBy_map_key_nodup {α κ : Type} [DecidableEq κ] (key : α → κ) (l : List α) :
    ((keepFirstBy key l).map key).Nodup := by
  induction l using keepFirstBy.induct key with
  | case1 => simp [keepFirstBy]
  | case2 x xs ih =>
    rw [keepFirstBy, List.map_cons, List.nodup_cons]
    refine ⟨?_, ih⟩
    intro hmem
    rcases List.mem_map.mp hmem with ⟨y, hy, hky⟩
    have := List.of_mem_filter (mem_keepFirstBy hy)
    simp at this
    exact this hky

theorem dedupHistoryAux_eq (ms : List RawHistMovie) : ∀ seen,
    dedupHistoryAux seen ms =
      (keepFirstBy histKey (ms.filter (fun m => histKey m ∉ seen))).map histRemap := by
  induction ms with
  | nil => intro seen; simp [dedupHistoryAux, keepFirstBy]
  | cons m ms ih =>
    intro seen
    by_cases h : histKey m ∈ seen
    · rw [dedupHistoryAux, if_pos h, List.filter_cons]
      simp only [h, not_true_eq_false, decide_False, if_false]
      exact ih seen
    · rw [dedupHistoryAux, if_neg h, List.filter_cons]
      simp only [h, not_false_eq_true, decide_True, if_true]
      rw [show keepFirstBy histKey (m :: List.filter (fun m => decide ¬histKey m ∈ seen) ms)
          = m :: keepFirstBy histKey ((List.filter (fun m => decide ¬histKey m ∈ seen) ms).filter
              (fun y => histKey y ≠ histKey m)) from by rw [keepFirstBy]]
      rw [List.map_cons, ih (histKey m :: seen)]
      rw [List.filter_filter]
      have hf : List.filter (fun x => decide (histKey x ∉ histKey m :: seen)) ms
          = List.filter (fun a => decide (histKey a ≠ histKey m) && decide (histKey a ∉ seen)) ms := by
        apply List.filter_congr
        intro x _
        by_cases h1 : histKey x = histKey m <;> by_cases h2 : histKey x ∈ seen <;>
          simp [h1, h2]
      rw [hf]

theorem dedupHistory_eq (ms : List RawHistMovie) :
    dedupHistory ms = (keepFirstBy histKey ms).map histRemap := by
  rw [dedupHistory, dedupHistoryAux_eq]
  simp

theorem dedupWatchlistAux_eq (ms : List RawMovie) : ∀ seen,
    dedupWatchlistAux seen ms =
      (keepFirstBy wlKey (ms.filter (fun m => wlKey m ∉ seen))).map wlRemap := by
  induction ms with
  | nil => intro seen; simp [dedupWatchlistAux, keepFirstBy]
  | cons m ms ih =>
    intro seen
    by_cases h : wlKey m ∈ seen
    · rw [dedupWatchlistAux, if_pos h, List.filter_cons]
      simp only [h, not_true_eq_false, decide_False, if_false]
      exact ih seen
    · rw [dedupWatchlistAux, if_neg h, List.filter_cons]
      simp only [h, not_false_eq_true, decide_True, if_true]
      rw [show keepFirstBy wlKey (m :: List.filter (fun m => decide ¬wlKey m ∈ seen) ms)
          = m :: keepFirstBy wlKey ((List.filter (fun m => decide ¬wlKey m ∈ seen) ms).filter
              (fun y => wlKey y ≠ wlKey m)) from by rw [keepFirstBy]]
      rw [List.map_cons, ih (wlKey m :: seen)]
      rw [List.filter_filter]
      have hf : List.filter (fun x => decide (wlKey x ∉ wlKey m :: seen)) ms
          = List.filter (fun a => decide (wlKey a ≠ wlKey m) && decide (wlKey a ∉ seen)) ms := by
        apply List.filter_congr
        intro x _
        by_cases h1 : wlKey x = wlKey m <;> by_cases h2 : wlKey x ∈ seen <;>
          simp [h1, h2]
      rw [hf]

theorem dedupWatchlist_eq (ms : List RawMovie) :
    dedupWatchlist ms = (keepFirstBy wlKey ms).map wlRemap := by
  rw [dedupWatchlist, dedupWatchlistAux_eq]
  simp

/-- C10: the derived `uniqueHistory` of `fetchProfile` contains each movie
id at most once, keeps only the first occurrence of each id, and preserves
the relative order of those first occurrences; the fetched watchlist is
deduplicated the same way.  `keepFirstBy` is the claim's first-occurrence
deduplication, stated as a reference definition. -/
theorem fetchProfile_dedup (wl : List RawMovie) (hist : List RawHistMovie) :
    dedupHistory hist = (keepFirstBy histKey hist).map histRemap ∧
    ((dedupHistory hist).map HistEntry.movieId).Nodup ∧
    dedupWatchlist wl = (keepFirstBy wlKey wl).map wlRemap ∧
    ((dedupWatchlist wl).map RawMovie.id).Nodup := by
  have hh : (HistEntry.movieId ∘ histRemap) = histKey := by
    funext m
    rfl
  have hw : (RawMovie.id ∘ wlRemap) = wlKey := by
    funext m
    rfl
  refine ⟨dedupHistory_eq hist, ?_, dedupWatchlist_eq wl, ?_⟩
  · rw [dedupHistory_eq, List.map_map, hh]
    exact keepFirstBy_map_key_nodup _ _
  · rw [dedupWatchlist_eq, List.map_map, hw]
    exact keepFirstBy_map_key_nodup _ _

/-! ### Recommendation engine (modelled from the spec)

The backend recommendation engine (content-based similarity,
collaborative prediction, hybrid scoring/diversity, recommendation cache)
is not among the checked-in sources — only its frontend callers and
design documents are.  The definitions below are therefore modelled from
the specification (sections 4.1–4.5 and 7).  Numeric machinery that the
settled claims do not depend on (TF-IDF feature extraction, truncated-SVD
latent factors, blending-weight constants) is abstracted as explicit
function parameters, as the spec itself treats these as implementer-chosen
configuration. -/

/-- Modelled from the spec: the error-handling taxonomy of section 7 — all
domain-expected conditions are absorbed into an explicit status. -/
inductive RecStatus where
  | ok
  | notFound
  | insufficientData
  | emptyResult
deriving DecidableEq

/-- Modelled from the spec: a catalog movie record (section 3). -/
structure Movie where
  id : String
  title : String
  genres : List String
  overview : String
  keywords : String
  year : Int
  vote_average : ℚ
  vote_count : Nat
  popularity : ℚ
deriving DecidableEq

/-- Modelled from the spec: a transient per-request score entry
(section 3 ScoreEntry): movie id, its genre set (consumed by the
diversity filter) and the blended score. -/
structure ScoreEntry where
  movie_id : String
  genres : List String
  score : ℚ
deriving DecidableEq

/-- Modelled from the spec: an entry returned by `get_similar`, carrying
the stable catalog position used as the deterministic tie-break
(section 4.1). -/
structure SimEntry where
  movie_id : String
  score : ℚ
  idx : Nat
deriving DecidableEq

/-- Ranking relation of the content engine: higher similarity first, ties
broken by stable catalog order. -/
def simRank (a b : SimEntry) : Prop :=
  b.score < a.score ∨ (a.score = b.score ∧ a.idx ≤ b.idx)

instance : DecidableRel simRank := fun _ _ =>
  inferInstanceAs (Decidable (_ ∨ _))

instance : IsTotal SimEntry simRank := ⟨by
  intro a b
  rcases lt_trichotomy a.score b.score with h | h | h
  · exact Or.inr (Or.inl h)
  · rcases Nat.le_total a.idx b.idx with h2 | h2
    · exact Or.inl (Or.inr ⟨h, h2⟩)
    · exact Or.inr (Or.inr ⟨h.symm, h2⟩)
  · exact Or.inl (Or.inl h)⟩

instance : IsTrans SimEntry simRank := ⟨by
  intro a b c hab hbc
  rcases hab with h1 | ⟨h1, h1'⟩ <;> rcases hbc with h2 | ⟨h2, h2'⟩
  · exact Or.inl (h2.trans h1)
  · exact Or.inl (lt_of_eq_of_lt h2.symm h1)
  · exact Or.inl (lt_of_lt_of_eq h2 h1.symm)
  · exact Or.inr ⟨h1.trans h2, h1'.trans h2'⟩⟩

/-- Modelled from the spec: `get_similar(movie_id, n)` (sections 4.1, 6) —
rank all other catalog movies by a similarity function `sim` over the
feature space (the TF-IDF machinery is abstracted as the parameter),
excluding the movie itself, sorted non-increasing with stable catalog
order as tie-break, truncated to `n`; an unknown `movie_id` yields
`([], NotFound)` without failing. -/
def getSimilar (sim : Movie → Movie → ℚ) (catalog : List Movie) (movieId : String) (n : Nat) :
    List SimEntry × RecStatus :=
  match catalog.find? (fun m => m.id == movieId) with
  | none => ([], .notFound)
  | some target =>
    let entries := (catalog.enum.filter (fun p => p.2.id != movieId)).map
      (fun p => SimEntry.mk p.2.id (sim target p.2) p.1)
    ((entries.insertionSort simRank).take n, .ok)

/-- Modelled from the spec: a rating fact (section 3). -/
structure Rating where
  user_id : String
  movie_id : String
  value : ℚ
  timestamp : Nat
deriving DecidableEq

/-- Modelled from the spec: the collaborative engine's outcome — either
the explicit InsufficientData signal or a ranked prediction list. -/
inductive PredictResult where
  | insufficientData
  | predictions (entries : List ScoreEntry)
deriving DecidableEq

/-- Modelled from the spec: collaborative `predict(user_id, n)`
(section 4.2) — a user with fewer than 2 ratings yields the explicit
InsufficientData signal rather than a noisy prediction; otherwise the
reconstructed-score ranking (truncated-SVD latent factors abstracted as
`latentScores`, already ranked descending) is truncated to `n`. -/
def collabPredict (latentScores : String → List ScoreEntry) (ratings : List Rating)
    (userId : String) (n : Nat) : PredictResult :=
  if (ratings.filter (fun r => r.user_id == userId)).length < 2 then .insufficientData
  else .predictions ((latentScores userId).take n)

/-- Modelled from the spec: the quality floor (section 4.4) — candidates
below the floor are dropped unless that leaves fewer than `n` results, in
which case the floor is relaxed only to backfill from the next-highest
rejects; items with negative scores are never returned. -/
def qualityFloor (minScore : ℚ) (n : Nat) (l : List ScoreEntry) : List ScoreEntry :=
  let keep := l.filter (fun e => decide (minScore ≤ e.score))
  let rejects := l.filter (fun e => decide (e.score < minScore) && decide (0 ≤ e.score))
  if keep.length < n then keep ++ rejects.take (n - keep.length) else keep

/-- Modelled from the spec: greedy result filling with the diversity cap
(section 4.4) — scan candidates in descending score order, skip any
candidate already selected (de-duplication) or whose genres would push a
single genre's count past `cap`, until `n` slots fill or candidates
exhaust.  `taken` holds the ids already selected and `counts` the running
per-genre counts. -/
def greedyFill (cap : Nat) : Nat → List String → (String → Nat) → List ScoreEntry → List ScoreEntry
  | _, _, _, [] => []
  | 0, _, _, _ :: _ => []
  | k + 1, taken, counts, c :: cs =>
    if decide (c.movie_id ∈ taken) || c.genres.any (fun g => decide (cap ≤ counts g)) then
      greedyFill cap (k + 1) taken counts cs
    else
      c :: greedyFill cap k (c.movie_id :: taken)
        (fun g => if g ∈ c.genres then counts g + 1 else counts g) cs

/-- A deterministic hash of a user id, used only to seed the reproducible
fallback shuffle. -/
def simpleHash (s : String) : Nat := s.data.foldl (fun h c => h * 31 + c.toNat) 7

/-- Modelled from the spec: popularity-fallback ordering, shuffled
deterministically by a hash of `user_id` (section 4.4), reproducible
per user. -/
def popShuffle (userId : Option String) (l : List ScoreEntry) : List ScoreEntry :=
  match userId with
  | none => l
  | some uid => l.rotate (simpleHash uid % max 1 l.length)

/-- Modelled from the spec: the request modes of `get_recommendations`
(section 6). -/
inductive RecType where
  | content
  | collaborative
  | hybrid
  | personalized
deriving DecidableEq

/-- Ranking relation of the hybrid scorer: descending blended score
(stable, so equal scores keep their merge order). -/
def scoreRank (a b : ScoreEntry) : Prop := b.score ≤ a.score

instance : DecidableRel scoreRank := fun _ _ =>
  inferInstanceAs (Decidable (_ ≤ _))

instance : IsTotal ScoreEntry scoreRank := ⟨fun a b => le_total b.score a.score⟩

instance : IsTrans ScoreEntry scoreRank := ⟨fun _ _ _ h1 h2 => h2.trans h1⟩

/-- Modelled from the spec: weighted per-mode blending (section 4.4):
component candidate scores are scaled by their mode weights, merged and
re-ranked descending; the exact constants are implementer-chosen
configuration (section 9). -/
def blendWeighted (w1 w2 : ℚ) (l1 l2 : List ScoreEntry) : List ScoreEntry :=
  ((l1.map (fun e : ScoreEntry => { e with score := w1 * e.score })) ++
   (l2.map (fun e : ScoreEntry => { e with score := w2 * e.score }))).insertionSort scoreRank

/-- Modelled from the spec: the final stage of the Hybrid Scorer
(section 2 flow, section 4.4): quality floor, then greedy de-duplicated
diversity-capped filling from the scored candidates followed by the
popularity fallback, and the EmptyResult status when all strategies are
exhausted (section 7). -/
def finalize (cap n : Nat) (minScore : ℚ) (cands popularity : List ScoreEntry) :
    List ScoreEntry × RecStatus :=
  let pool := qualityFloor minScore n cands ++ popularity
  let result := greedyFill cap n [] (fun _ => 0) pool
  if result.isEmpty then ([], .emptyResult) else (result, .ok)

/-- The genre set of a movie id, read back from the catalog. -/
def entryOfSim (catalog : List Movie) (e : SimEntry) : ScoreEntry :=
  ⟨e.movie_id, ((catalog.find? (fun m => m.id == e.movie_id)).map Movie.genres).getD [], e.score⟩

/-- Modelled from the spec: `recommend(rec_type, user_id?, movie_id?, n)`
(sections 4.4, 6): per-mode candidate generation (content similarity,
collaborative predictions, personalized profile scores — the engines'
numeric internals abstracted as parameters), InsufficientData and
missing-id handling, then the shared finalize stage with the popularity
fallback. -/
def recommend (sim : Movie → Movie → ℚ) (catalog : List Movie)
    (latentScores : String → List ScoreEntry) (profileScores : String → List ScoreEntry)
    (ratings : List Rating) (popularity : List ScoreEntry)
    (cap n : Nat) (minScore : ℚ)
    (recType : RecType) (userId : Option String) (movieId : Option String) :
    List ScoreEntry × RecStatus :=
  match recType with
  | .content =>
    match movieId with
    | none => ([], .notFound)
    | some mid =>
      match catalog.find? (fun m => m.id == mid) with
      | none => ([], .notFound)
      | some _ =>
        finalize cap n minScore
          ((getSimilar sim catalog mid (5 * n)).1.map (entryOfSim catalog))
          (popShuffle userId popularity)
  | .collaborative =>
    match userId with
    | none => finalize cap n minScore [] (popShuffle none popularity)
    | some uid =>
      match collabPredict latentScores ratings uid (5 * n) with
      | .insufficientData => finalize cap n minScore [] (popShuffle (some uid) popularity)
      | .predictions l => finalize cap n minScore l (popShuffle (some uid) popularity)
  | .hybrid =>
    match userId with
    | none => finalize cap n minScore [] (popShuffle none popularity)
    | some uid =>
      match collabPredict latentScores ratings uid (5 * n) with
      | .insufficientData => finalize cap n minScore [] (popShuffle (some uid) popularity)
      | .predictions l =>
        finalize cap n minScore (blendWeighted (2 / 5) (3 / 10) l (profileScores uid))
          (popShuffle (some uid) popularity)
  | .personalized =>
    match userId with
    | none => finalize cap n minScore [] (popShuffle none popularity)
    | some uid =>
      finalize cap n minScore (profileScores uid) (popShuffle (some uid) popularity)

/-- Modelled from the spec: the recommendation-cache key (section 4.5). -/
structure CacheKey where
  rec_type : RecType
  user_id : Option String
  movie_id : Option String
  n : Nat
deriving DecidableEq

/-- Modelled from the spec: a cache entry (section 3 CacheEntry). -/
structure CacheEntry where
  key : CacheKey
  payload : List ScoreEntry
  created_at : Nat
  expires_at : Nat
deriving DecidableEq

/-- Modelled from the spec: cache lookup (section 4.5): a stored entry is
served only before its expiry; eviction is time-based only. -/
def cacheLookup (now : Nat) (entries : List CacheEntry) (k : CacheKey) :
    Option (List ScoreEntry) :=
  match entries.find? (fun e => decide (e.key = k)) with
  | some e => if now < e.expires_at then some e.payload else none
  | none => none

/-- Modelled from the spec: `get_recommendations` through the read-through
cache (section 4.5): hit → immediate return; miss/expired → synchronous
compute via the Hybrid Scorer (abstracted as `compute`, a pure function of
the request signature), then write with fresh expiry `now + ttl`. -/
def getRecommendationsCached (compute : CacheKey → List ScoreEntry) (ttl now : Nat)
    (entries : List CacheEntry) (k : CacheKey) : List ScoreEntry × List CacheEntry :=
  match cacheLookup now entries k with
  | some p => (p, entries)
  | none => (compute k, ⟨k, compute k, now, now + ttl⟩ :: entries)

/-- The number of result entries carrying genre `g`. -/
def genreCount (g : String) (l : List ScoreEntry) : Nat :=
  (l.filter (fun e => decide (g ∈ e.genres))).length

theorem greedyFill_length (cap : Nat) (cs : List ScoreEntry) : ∀ (k : Nat) taken counts,
    (greedyFill cap k taken counts cs).length ≤ k := by
  induction cs with
  | nil =>
    intro k taken counts
    cases k <;> simp [greedyFill]
  | cons c cs ih =>
    intro k taken counts
    cases k with
    | zero => simp [greedyFill]
    | succ k =>
      rw [greedyFill]
      split
      · exact ih (k + 1) taken counts
      · simp only [List.length_cons]
        exact Nat.succ_le_succ (ih k _ _)

theorem greedyFill_ids (cap : Nat) (cs : List ScoreEntry) : ∀ (k : Nat) taken counts,
    ((greedyFill cap k taken counts cs).map ScoreEntry.movie_id).Nodup ∧
    ∀ e ∈ greedyFill cap k taken counts cs, e.movie_id ∉ taken := by
  induction cs with
  | nil =>
    intro k taken counts
    cases k <;> simp [greedyFill]
  | cons c cs ih =>
    intro k taken counts
    cases k with
    | zero => simp [greedyFill]
    | succ k =>
      rw [greedyFill]
      split
      · exact ih (k + 1) taken counts
      case isFalse hcond =>
        have hnin : c.movie_id ∉ taken := by
          intro hmem
          exact hcond (by simp [hmem])
        obtain ⟨ihn, ihm⟩ := ih k (c.movie_id :: taken)
          (fun g => if g ∈ c.genres then counts g + 1 else counts g)
        refine ⟨?_, ?_⟩
        · rw [List.map_cons, List.nodup_cons]
          refine ⟨?_, ihn⟩
          intro hmem
          rcases List.mem_map.mp hmem with ⟨e, he, hid⟩
          exact (ihm e he) (by rw [hid]; exact List.mem_cons_self _ _)
        · intro e he
          rcases List.mem_cons.mp he with rfl | he
          · exact hnin
          · intro hmem
            exact (ihm e he) (List.mem_cons_of_mem _ hmem)

theorem greedyFill_genreCount (cap : Nat) (g : String) (cs : List ScoreEntry) :
    ∀ (k : Nat) taken counts, counts g ≤ cap →
    counts g + genreCount g (greedyFill cap k taken counts cs) ≤ cap := by
  induction cs with
  | nil =>
    intro k taken counts h
    cases k <;> simp [greedyFill, genreCount] <;> omega
  | cons c cs ih =>
    intro k taken counts h
    cases k with
    | zero => simp [greedyFill, genreCount]; omega
    | succ k =>
      rw [greedyFill]
      split
      · exact ih (k + 1) taken counts h
      case isFalse hcond =>
        by_cases hg : g ∈ c.genres
        · have hlt : counts g < cap := by
            rcases Nat.lt_or_ge (counts g) cap with h' | h'
            · exact h'
            · exfalso
              apply hcond
              simp only [Bool.or_eq_true, List.any_eq_true]
              exact Or.inr ⟨g, hg, by simpa using h'⟩
          have hc : (fun g' => if g' ∈ c.genres then counts g' + 1 else counts g') g ≤ cap := by
            simp [hg]
            omega
          have := ih k (c.movie_id :: taken)
            (fun g' => if g' ∈ c.genres then counts g' + 1 else counts g') hc
          simp only [hg, if_pos] at this
          rw [genreCount, List.filter_cons]
          simp only [hg, decide_True, if_true, List.length_cons]
          rw [genreCount] at this
          omega
        · have hc : (fun g' => if g' ∈ c.genres then counts g' + 1 else counts g') g ≤ cap := by
            simp [hg]
            omega
          have := ih k (c.movie_id :: taken)
            (fun g' => if g' ∈ c.genres then counts g' + 1 else counts g') hc
          simp only [hg, if_neg] at this
          rw [genreCount, List.filter_cons]
          simp only [hg, decide_False, if_false]
          rw [genreCount] at this
          simpa using this

theorem finalize_wellFormed (cap n : Nat) (minScore : ℚ) (cands popularity : List ScoreEntry) :
    (finalize cap n minScore cands popularity).1.length ≤ n ∧
    ((finalize cap n minScore cands popularity).1.map ScoreEntry.movie_id).Nodup := by
  simp only [finalize]
  split
  · simp
  · exact ⟨greedyFill_length cap _ n [] _, (greedyFill_ids cap _ n [] _).1⟩

theorem finalize_genreCount (cap n : Nat) (minScore : ℚ) (g : String)
    (cands popularity : List ScoreEntry) :
    genreCount g (finalize cap n minScore cands popularity).1 ≤ cap := by
  simp only [finalize]
  split
  · simp [genreCount]
  · have := greedyFill_genreCount cap g (qualityFloor minScore n cands ++ popularity)
      n [] (fun _ => 0) (Nat.zero_le cap)
    simpa using this

/-- C1: every recommendation request yields a well-formed result: at most
`n` movies, no movie id appearing more than once, for every mode and
input — never an error (`recommend` is total and each branch produces an
explicit status). -/
theorem recommend_wellFormed (sim : Movie → Movie → ℚ) (catalog : List Movie)
    (latentScores profileScores : String → List ScoreEntry)
    (ratings : List Rating) (popularity : List ScoreEntry)
    (cap n : Nat) (minScore : ℚ)
    (recType : RecType) (userId : Option String) (movieId : Option String) :
    (recommend sim catalog latentScores profileScores ratings popularity cap n minScore
      recType userId movieId).1.length ≤ n ∧
    ((recommend sim catalog latentScores profileScores ratings popularity cap n minScore
      recType userId movieId).1.map ScoreEntry.movie_id).Nodup := by
  cases recType with
  | content =>
    cases movieId with
    | none => simp [recommend]
    | some mid =>
      rcases h : catalog.find? (fun m => m.id == mid) with _ | target
      · simp [recommend, h]
      · simp only [recommend, h]
        exact finalize_wellFormed cap n minScore _ _
  | collaborative =>
    cases userId with
    | none =>
      simp only [recommend]
      exact finalize_wellFormed cap n minScore _ _
    | some uid =>
      rcases hp : collabPredict latentScores ratings uid (5 * n) with _ | l <;>
        simp only [recommend, hp] <;>
        exact finalize_wellFormed cap n minScore _ _
  | hybrid =>
    cases userId with
    | none =>
      simp only [recommend]
      exact finalize_wellFormed cap n minScore _ _
    | some uid =>
      rcases hp : collabPredict latentScores ratings uid (5 * n) with _ | l <;>
        simp only [recommend, hp] <;>
        exact finalize_wellFormed cap n minScore _ _
  | personalized =>
    cases userId with
    | none =>
      simp only [recommend]
      exact finalize_wellFormed cap n minScore _ _
    | some uid =>
      simp only [recommend]
      exact finalize_wellFormed cap n minScore _ _

/-- C5: in every hybrid or personalized result, the number of movies
sharing any single genre never exceeds the configured diversity cap: the
greedy fill skips any candidate that would push a genre's count past
`cap`. -/
theorem recommend_diversity (sim : Movie → Movie → ℚ) (catalog : List Movie)
    (latentScores profileScores : String → List ScoreEntry)
    (ratings : List Rating) (popularity : List ScoreEntry)
    (cap n : Nat) (minScore : ℚ)
    (userId : Option String) (movieId : Option String) (g : String) :
    genreCount g (recommend sim catalog latentScores profileScores ratings popularity cap n
      minScore .hybrid userId movieId).1 ≤ cap ∧
    genreCount g (recommend sim catalog latentScores profileScores ratings popularity cap n
      minScore .personalized userId movieId).1 ≤ cap := by
  constructor
  · cases userId with
    | none =>
      simp only [recommend]
      exact finalize_genreCount cap n minScore g _ _
    | some uid =>
      rcases hp : collabPredict latentScores ratings uid (5 * n) with _ | l <;>
        simp only [recommend, hp] <;>
        exact finalize_genreCount cap n minScore g _ _
  · cases userId with
    | none =>
      simp only [recommend]
      exact finalize_genreCount cap n minScore g _ _
    | some uid =>
      simp only [recommend]
      exact finalize_genreCount cap n minScore g _ _

/-- C2: for every movie present in the catalog, `get_similar(movie_id, n)`
returns OK with at most `n` entries, never includes `movie_id` itself,
and the entries are sorted non-increasing by similarity score with ties
broken by stable catalog order (`Pairwise simRank`). -/
theorem getSimilar_spec (sim : Movie → Movie → ℚ) (catalog : List Movie)
    (movieId : String) (n : Nat)
    (h : (catalog.find? (fun m => m.id == movieId)).isSome = true) :
    (getSimilar sim catalog movieId n).2 = .ok ∧
    (getSimilar sim catalog movieId n).1.length ≤ n ∧
    (∀ e ∈ (getSimilar sim catalog movieId n).1, e.movie_id ≠ movieId) ∧
    (getSimilar sim catalog movieId n).1.Pairwise simRank ∧
    ((getSimilar sim catalog movieId n).1.map SimEntry.score).Sorted (· ≥ ·) := by
  obtain ⟨target, ht⟩ := Option.isSome_iff_exists.mp h
  simp only [getSimilar, ht]
  have hsorted : ((((catalog.enum.filter (fun p => p.2.id != movieId)).map
      (fun p => SimEntry.mk p.2.id (sim target p.2) p.1)).insertionSort simRank).take n).Pairwise
        simRank :=
    List.Pairwise.sublist (List.take_sublist _ _) (List.sorted_insertionSort simRank _)
  refine ⟨trivial, ?_, ?_, hsorted, ?_⟩
  · exact le_trans (le_of_eq (List.length_take _ _)) (min_le_left _ _)
  · intro e he
    have he' := (List.mem_insertionSort simRank).mp (List.take_subset _ _ he)
    rcases List.mem_map.mp he' with ⟨p, hp, rfl⟩
    have := (List.mem_filter.mp hp).2
    simpa using this
  · exact List.Pairwise.map SimEntry.score
      (fun a b hab => by
        rcases hab with h' | ⟨h', _⟩
        · exact le_of_lt h'
        · exact le_of_eq h'.symm) hsorted

/-- C3: for a movie id absent from the catalog, `get_similar` yields the
empty list with the NotFound status (and, being a total function, never
raises). -/
theorem getSimilar_notFound (sim : Movie → Movie → ℚ) (catalog : List Movie)
    (movieId : String) (n : Nat)
    (h : catalog.find? (fun m => m.id == movieId) = none) :
    getSimilar sim catalog movieId n = ([], .notFound) := by
  simp [getSimilar, h]

/-- C4: a user with fewer than 2 ratings makes the collaborative engine
return the explicit InsufficientData signal (for any requested size), and
the scorer consumes that signal by selecting the popularity-fallback
strategy in both collaborative and hybrid modes, instead of surfacing a
failure. -/
theorem collab_coldStart (sim : Movie → Movie → ℚ) (catalog : List Movie)
    (latentScores profileScores : String → List ScoreEntry)
    (ratings : List Rating) (popularity : List ScoreEntry)
    (cap n m : Nat) (minScore : ℚ) (uid : String) (movieId : Option String)
    (h : (ratings.filter (fun r => r.user_id == uid)).length < 2) :
    collabPredict latentScores ratings uid m = .insufficientData ∧
    recommend sim catalog latentScores profileScores ratings popularity cap n minScore
      .collaborative (some uid) movieId
      = finalize cap n minScore [] (popShuffle (some uid) popularity) ∧
    recommend sim catalog latentScores profileScores ratings popularity cap n minScore
      .hybrid (some uid) movieId
      = finalize cap n minScore [] (popShuffle (some uid) popularity) := by
  have h1 : collabPredict latentScores ratings uid (5 * n) = .insufficientData := by
    rw [collabPredict, if_pos h]
  refine ⟨by rw [collabPredict, if_pos h], ?_, ?_⟩
  · simp only [recommend, h1]
  · simp only [recommend, h1]

/-- C6: identical requests within one cache TTL return identical results:
on a miss the first call computes and writes the entry, and a second call
at any time before expiry is served the cached payload with the cache
unchanged. -/
theorem cache_idempotent (compute : CacheKey → List ScoreEntry) (ttl now1 now2 : Nat)
    (entries : List CacheEntry) (k : CacheKey)
    (hmiss : cacheLookup now1 entries k = none)
    (_h12 : now1 ≤ now2) (httl : now2 < now1 + ttl) :
    (getRecommendationsCached compute ttl now1 entries k).1 = compute k ∧
    (getRecommendationsCached compute ttl now2
        (getRecommendationsCached compute ttl now1 entries k).2 k).1
      = (getRecommendationsCached compute ttl now1 entries k).1 ∧
    (getRecommendationsCached compute ttl now2
        (getRecommendationsCached compute ttl now1 entries k).2 k).2
      = (getRecommendationsCached compute ttl now1 entries k).2 := by
  have h1 : getRecommendationsCached compute ttl now1 entries k
      = (compute k, ⟨k, compute k, now1, now1 + ttl⟩ :: entries) := by
    simp [getRecommendationsCached, hmiss]
  have h2 : cacheLookup now2 (⟨k, compute k, now1, now1 + ttl⟩ :: entries) k
      = some (compute k) := by
    simp [cacheLookup, List.find?_cons, httl]
  rw [h1]
  simp [getRecommendationsCached, h2]

/-! ### Concrete sample inputs used by the witnesses -/

def demoMovie (i : String) (gs : List String) : Movie :=
  ⟨i, "", gs, "", "", 0, 0, 0, 0⟩

def demoCatalog : List Movie :=
  [demoMovie "m1" ["Comedy"], demoMovie "m2" ["Action"], demoMovie "m3" ["Drama"]]

def simZero : Movie → Movie → ℚ := fun _ _ => 0

def demoScores : String → List ScoreEntry := fun _ => []

def demoPop : List ScoreEntry := [⟨"m2", ["Action"], 1⟩]

def demoRatings : List Rating := [⟨"u1", "m1", 5, 0⟩]

def demoKey : CacheKey := ⟨.hybrid, some "u1", none, 10⟩

def demoCompute : CacheKey → List ScoreEntry := fun _ => demoPop

/-- Closed-form check of `getSimilar_spec`: `"m1"` is present in the
three-movie demo catalog. -/
theorem getSimilar_spec_witness :
    (getSimilar simZero demoCatalog "m1" 2).2 = .ok ∧
    (getSimilar simZero demoCatalog "m1" 2).1.length ≤ 2 ∧
    (∀ e ∈ (getSimilar simZero demoCatalog "m1" 2).1, e.movie_id ≠ "m1") ∧
    (getSimilar simZero demoCatalog "m1" 2).1.Pairwise simRank ∧
    ((getSimilar simZero demoCatalog "m1" 2).1.map SimEntry.score).Sorted (· ≥ ·) :=
  getSimilar_spec simZero demoCatalog "m1" 2 (by decide)

/-- Closed-form check of `getSimilar_notFound` at the spec's Scenario B
input `get_similar("missing_id", 5)`. -/
theorem getSimilar_notFound_witness :
    getSimilar simZero demoCatalog "missing_id" 5 = ([], .notFound) :=
  getSimilar_notFound simZero demoCatalog "missing_id" 5 (by decide)

/-- Closed-form check of `collab_coldStart`: user `"u1"` has exactly one
rating, so the cold-start path is taken. -/
theorem collab_coldStart_witness :
    collabPredict demoScores demoRatings "u1" 50 = .insufficientData ∧
    recommend simZero demoCatalog demoScores demoScores demoRatings demoPop 3 10 (1 / 5)
      .collaborative (some "u1") none
      = finalize 3 10 (1 / 5) [] (popShuffle (some "u1") demoPop) ∧
    recommend simZero demoCatalog demoScores demoScores demoRatings demoPop 3 10 (1 / 5)
      .hybrid (some "u1") none
      = finalize 3 10 (1 / 5) [] (popShuffle (some "u1") demoPop) :=
  collab_coldStart simZero demoCatalog demoScores demoScores demoRatings demoPop
    3 10 50 (1 / 5) "u1" none (by decide)

/-- Closed-form check of `cache_idempotent`: a miss at time 0 with TTL 300
followed by an identical request at time 100. -/
theorem cache_idempotent_witness :
    (getRecommendationsCached demoCompute 300 0 [] demoKey).1 = demoCompute demoKey ∧
    (getRecommendationsCached demoCompute 300 100
        (getRecommendationsCached demoCompute 300 0 [] demoKey).2 demoKey).1
      = (getRecommendationsCached demoCompute 300 0 [] demoKey).1 ∧
    (getRecommendationsCached demoCompute 300 100
        (getRecommendationsCached demoCompute 300 0 [] demoKey).2 demoKey).2
      = (getRecommendationsCached demoCompute 300 0 [] demoKey).2 :=
  cache_idempotent demoCompute 300 0 100 [] demoKey (by decide) (by decide) (by decide)

end FilmFlow
